import Mathlib

/-!
Verification development for the broken-link-tester repository
(src/crawler.py and src/crawler_selenium.py).

The Python code is shallowly embedded as executable Lean functions:

* `UrlLib` models the parts of CPython `urllib.parse` the crawler uses
  (`urlsplit`, `urlparse`, `urljoin`, string containment), including the
  `ValueError` raised on mismatched IPv6 brackets (modelled as `Except.error`).
  The NFKC netloc check and the bracketed-host validation of newer CPython,
  which raise only on exotic non-ASCII or bracketed inputs, are not modelled;
  in the crawler every such exception path is caught and mapped to `false`
  or to the generic error handler, exactly as the modelled one is.
* `Crawler` models src/crawler.py: the URL predicates, the retry loop of
  `fetch_url_with_retry` (transport behaviour is an oracle giving, per attempt,
  a timeout, a transport error, or a response with a status code and the
  hrefs that the BeautifulSoup collaborator extracts from its body), and the
  recursive `crawl_url` orchestrator as a state-passing function.
* `Selenium` models src/crawler_selenium.py 's orchestrator the same way.

Concurrency is linearised: the thread pool dispatch loop is modelled as a
sequential fold (every interleaving of the lock-protected operations is a
sequentialisation, and the visited-registry model `runClaims` quantifies over
arbitrary request interleavings).  Each crawl produces an `Event` trace
(claims, fetches, record calls) used to state the dedup and ordering claims.
-/

/-- Decidable equality on Except, for evaluating the parser model. -/
instance {ε α : Type} [DecidableEq ε] [DecidableEq α] : DecidableEq (Except ε α) := fun x y =>
  match x, y with
  | Except.ok a, Except.ok b =>
      if h : a = b then isTrue (by rw [h])
      else isFalse (by intro he; cases he; exact h rfl)
  | Except.ok _, Except.error _ => isFalse (by intro he; cases he)
  | Except.error _, Except.ok _ => isFalse (by intro he; cases he)
  | Except.error e, Except.error f =>
      if h : e = f then isTrue (by rw [h])
      else isFalse (by intro he; cases he; exact h rfl)

namespace UrlLib

/-- startsWithL p l is true iff p is a prefix of l (Python str.startswith on
code points). -/
def startsWithL : List Char → List Char → Bool
  | [], _ => true
  | _ :: _, [] => false
  | p :: ps, c :: cs => p == c && startsWithL ps cs

/-- containsL p l is true iff p occurs as a contiguous run inside l
(Python `p in l` on strings). -/
def containsL (p : List Char) : List Char → Bool
  | [] => p.isEmpty
  | c :: cs => startsWithL p (c :: cs) || containsL p cs

/-- Python `sub in s` for strings. -/
def strContains (s sub : String) : Bool :=
  containsL sub.data s.data

/-- Characters allowed in a URL scheme (urllib.parse.scheme_chars). -/
def scheme_chars : List Char :=
  "abcdefghijklmnopqrstuvwxyzABCDEFGHIJKLMNOPQRSTUVWXYZ0123456789+-.".data

/-- Schemes that allow relative joining (urllib.parse.uses_relative). -/
def uses_relative : List String :=
  ["", "ftp", "http", "gopher", "nntp", "imap", "wais", "file", "https",
   "shttp", "mms", "prospero", "rtsp", "rtspu", "sftp", "svn", "svn+ssh",
   "ws", "wss"]

/-- Schemes that use a network location (urllib.parse.uses_netloc). -/
def uses_netloc : List String :=
  ["", "ftp", "http", "gopher", "nntp", "telnet", "imap", "wais", "file",
   "mms", "https", "shttp", "snews", "prospero", "rtsp", "rtspu", "rsync",
   "svn", "svn+ssh", "sftp", "nfs", "git", "git+ssh", "ws", "wss"]

/-- Schemes whose path may carry ;-parameters (urllib.parse.uses_params). -/
def uses_params : List String :=
  ["", "ftp", "hdl", "prospero", "http", "imap", "https", "shttp", "rtsp",
   "rtspu", "sip", "sips", "mms", "sftp", "tel"]

/-- urlsplit first removes ASCII tab, CR and LF anywhere in the URL
(_UNSAFE_URL_BYTES_TO_REMOVE). -/
def dropUnsafeChars (cs : List Char) : List Char :=
  cs.filter fun c => !(c == '\t' || c == '\r' || c == '\n')

/-- Scheme detection of urlsplit: a colon at position i > 0, first character
an ASCII letter, every character before the colon in scheme_chars.  Returns
the raw scheme characters and the rest after the colon. -/
def splitScheme (cs : List Char) : Option (List Char × List Char) :=
  match cs.findIdx? (fun c => c == ':') with
  | none => none
  | some i =>
      if 0 < i ∧ (cs.headD ' ').isAlpha = true ∧
          (cs.take i).all (fun c => scheme_chars.contains c) = true then
        some (cs.take i, cs.drop (i + 1))
      else none

/-- _splitnetloc: the netloc runs up to the first of the characters / ? #. -/
def splitNetloc : List Char → List Char × List Char
  | [] => ([], [])
  | c :: rest =>
      if c == '/' || c == '?' || c == '#' then ([], c :: rest)
      else
        let p := splitNetloc rest
        (c :: p.1, p.2)

/-- Split at the first occurrence of ch; if ch is absent the second component
is empty, which coincides with Python leaving the fragment or query empty. -/
def splitFirstChar (ch : Char) : List Char → List Char × List Char
  | [] => ([], [])
  | c :: cs =>
      if c == ch then ([], cs)
      else
        let p := splitFirstChar ch cs
        (c :: p.1, p.2)

structure SplitResult where
  scheme : String
  netloc : String
  path : String
  query : String
  fragment : String
deriving DecidableEq

/-- urllib.parse.urlsplit with allow_fragments=True.  The mismatched-bracket
check raises ValueError in Python, modelled as Except.error. -/
def urlsplitE (urlStr defaultScheme : String) : Except String SplitResult :=
  let cs := dropUnsafeChars urlStr.data
  let sr :=
    match splitScheme cs with
    | some p => (String.mk (p.1.map Char.toLower), p.2)
    | none => (defaultScheme, cs)
  let scheme := sr.1
  let rest := sr.2
  let nr : Except String (List Char × List Char) :=
    if rest.take 2 = ['/', '/'] then
      let p := splitNetloc (rest.drop 2)
      if (p.1.contains '[' && !p.1.contains ']') ||
         (p.1.contains ']' && !p.1.contains '[') then
        Except.error "Invalid IPv6 URL"
      else Except.ok p
    else Except.ok ([], rest)
  match nr with
  | Except.error e => Except.error e
  | Except.ok p =>
      let fr := splitFirstChar '#' p.2
      let pq := splitFirstChar '?' fr.1
      Except.ok ⟨scheme, String.mk p.1, String.mk pq.1, String.mk pq.2,
                 String.mk fr.2⟩

structure ParseResult where
  scheme : String
  netloc : String
  path : String
  params : String
  query : String
  fragment : String
deriving DecidableEq

/-- _splitparams: the ;-parameters are taken from the last path segment only.
Called by urlparse only when the path contains a semicolon. -/
def splitparams (cs : List Char) : List Char × List Char :=
  if cs.contains '/' then
    let k := cs.length - 1 - (cs.reverse.findIdx (fun c => c == '/'))
    let pre := cs.take k
    let suf := cs.drop k
    if suf.contains ';' then
      let s := splitFirstChar ';' suf
      (pre ++ s.1, s.2)
    else (cs, [])
  else
    let s := splitFirstChar ';' cs
    (s.1, s.2)

/-- urllib.parse.urlparse: urlsplit plus the parameter split. -/
def urlparseE (urlStr defaultScheme : String) : Except String ParseResult :=
  match urlsplitE urlStr defaultScheme with
  | Except.error e => Except.error e
  | Except.ok r =>
      if uses_params.contains r.scheme && r.path.data.contains ';' then
        let pp := splitparams r.path.data
        Except.ok ⟨r.scheme, r.netloc, String.mk pp.1, String.mk pp.2,
                   r.query, r.fragment⟩
      else Except.ok ⟨r.scheme, r.netloc, r.path, "", r.query, r.fragment⟩

/-- urllib.parse.urlunsplit. -/
def urlunsplit (scheme netloc path query fragment : String) : String :=
  let u1 :=
    if netloc ≠ "" ∨ (path ≠ "" ∧ path.data.take 2 = ['/', '/']) then
      let p := if path ≠ "" ∧ path.data.take 1 ≠ ['/'] then "/" ++ path else path
      "//" ++ netloc ++ p
    else path
  let u2 := if scheme ≠ "" then scheme ++ ":" ++ u1 else u1
  let u3 := if query ≠ "" then u2 ++ "?" ++ query else u2
  if fragment ≠ "" then u3 ++ "#" ++ fragment else u3

/-- urllib.parse.urlunparse. -/
def urlunparse (scheme netloc path params query fragment : String) : String :=
  let p := if params ≠ "" then path ++ ";" ++ params else path
  urlunsplit scheme netloc p query fragment

/-- Python str.split("/") as a structurally recursive list function. -/
def splitSlashL : List Char → List (List Char)
  | [] => [[]]
  | c :: cs =>
      let r := splitSlashL cs
      if c == '/' then [] :: r
      else
        match r with
        | [] => [[c]]
        | a :: rest => (c :: a) :: rest

/-- Python path.split("/") on strings. -/
def splitSlash (s : String) : List String :=
  (splitSlashL s.data).map String.mk

/-- Python "/".join(parts). -/
def joinSlash : List String → String
  | [] => ""
  | [a] => a
  | a :: b :: rest => a ++ "/" ++ joinSlash (b :: rest)

/-- Keep the first and last element, and drop empty strings strictly between
them (the Python slice assignment segments[1:-1] = filter(None, ...)). -/
def filterMiddle : List String → List String
  | [] => []
  | [a] => [a]
  | a :: rest => a :: ((rest.dropLast.filter fun s => s ≠ "") ++ [rest.getLastD ""])

/-- The dot-segment resolution loop of urljoin: ".." pops (ignoring underflow),
"." is dropped, anything else is appended. -/
def resolveSegments (segs : List String) : List String :=
  segs.foldl
    (fun acc seg =>
      if seg = ".." then acc.dropLast
      else if seg = "." then acc
      else acc ++ [seg]) []

/-- urllib.parse.urljoin.  A ValueError from either urlparse propagates
(Except.error); the crawler catches it with its generic handler. -/
def urljoinE (base url : String) : Except String String :=
  if base = "" then Except.ok url
  else if url = "" then Except.ok base
  else
    match urlparseE base "" with
    | Except.error e => Except.error e
    | Except.ok b =>
      match urlparseE url b.scheme with
      | Except.error e => Except.error e
      | Except.ok r =>
        if r.scheme ≠ b.scheme ∨ uses_relative.contains r.scheme = false then
          Except.ok url
        else if uses_netloc.contains r.scheme ∧ r.netloc ≠ "" then
          Except.ok (urlunparse r.scheme r.netloc r.path r.params r.query r.fragment)
        else
          let netloc :=
            if uses_netloc.contains r.scheme then b.netloc else r.netloc
          if r.path = "" ∧ r.params = "" then
            let q := if r.query = "" then b.query else r.query
            Except.ok (urlunparse r.scheme netloc b.path b.params q r.fragment)
          else
            let baseParts0 := splitSlash b.path
            let baseParts :=
              if baseParts0.getLastD "" ≠ "" then baseParts0.dropLast
              else baseParts0
            let segments :=
              if r.path.data.take 1 = ['/'] then splitSlash r.path
              else filterMiddle (baseParts ++ splitSlash r.path)
            let res0 := resolveSegments segments
            let res :=
              if segments.getLastD "" = ".." ∨ segments.getLastD "" = "." then
                res0 ++ [""]
              else res0
            let joined0 := joinSlash res
            let joined := if joined0 = "" then "/" else joined0
            Except.ok (urlunparse r.scheme netloc joined r.params r.query r.fragment)

end UrlLib

/-- Observable events of one crawl run: successful and failed check-and-insert
claims on the visited registry, fetches (one per fetch_url_with_retry call or
driver.get navigation), and calls of the broken-link sink. -/
inductive Event where
  | claimOk (url : String)
  | claimFail (url : String)
  | fetch (url : String)
  | record (origin detail : String)
deriving DecidableEq

/-- Shared mutable state of a run: the visited registry (a set, modelled as a
list inserted into only when absent), the broken-links set, and the sequence
of external write notifications (file appends), in order. -/
structure St where
  visited : List String
  broken : List (String × String)
  writes : List (String × String)
deriving DecidableEq

/-- Broken-link sink: broken_links.add (set semantics, no duplicate) followed
unconditionally by write_broken_link_to_file (append-only notifications). -/
def record (s : St) (origin detail : String) : St :=
  { s with
    broken :=
      if (origin, detail) ∈ s.broken then s.broken
      else s.broken ++ [(origin, detail)],
    writes := s.writes ++ [(origin, detail)] }

namespace Crawler
open UrlLib

def MAX_RETRIES : Nat := 3

/-- is_valid_url of crawler.py: scheme and netloc both non-empty; a parse
failure yields False. -/
def is_valid_url (url : String) : Bool :=
  match urlparseE url "" with
  | Except.ok r => (r.scheme != "") && (r.netloc != "")
  | Except.error _ => false

/-- is_target_domain of crawler.py: the target domain as a substring of the
parsed netloc; a parse failure yields False. -/
def is_target_domain (url target_domain : String) : Bool :=
  match urlparseE url "" with
  | Except.ok r => strContains r.netloc target_domain
  | Except.error _ => false

/-- is_mailto_link: url.lower().startswith("mailto:"). -/
def is_mailto_link (url : String) : Bool :=
  startsWithL "mailto:".data (url.data.map Char.toLower)

/-- is_tel_link: url.lower().startswith("tel:"). -/
def is_tel_link (url : String) : Bool :=
  startsWithL "tel:".data (url.data.map Char.toLower)

/-- What the transport does on one physical attempt: a requests timeout, any
other transport-level RequestException, or an HTTP response carrying a status
code and the hrefs the HTML collaborator extracts from its body. -/
inductive AttemptOutcome where
  | timeout
  | transportError (msg : String)
  | response (status : Nat) (hrefs : List String)
deriving DecidableEq

/-- The exceptions that can escape one attempt of the try block: a Timeout,
the HTTPError raised by response.raise_for_status() for status codes in
[400, 600), or another RequestException. -/
inductive ReqErr where
  | timeout
  | httpError (status : Nat)
  | transportError (msg : String)
deriving DecidableEq

/-- What fetch_url_with_retry produces: a returned response, a raised
exception, or the implicit None when the loop body never executes. -/
inductive FetchRes where
  | returned (status : Nat) (hrefs : List String)
  | raised (e : ReqErr)
  | noneReturned
deriving DecidableEq

/-- One attempt of the try body: session.get then response.raise_for_status(),
which raises HTTPError exactly for status codes in [400, 600). -/
def attemptResult : AttemptOutcome → Except ReqErr (Nat × List String)
  | AttemptOutcome.timeout => Except.error ReqErr.timeout
  | AttemptOutcome.transportError m => Except.error (ReqErr.transportError m)
  | AttemptOutcome.response s hs =>
      if 400 ≤ s ∧ s < 600 then Except.error (ReqErr.httpError s)
      else Except.ok (s, hs)

/-- The `for attempt in range(retries)` loop: on an exception, if
attempt < retries - 1 wait 2^attempt and continue, else re-raise; falling off
the loop returns None.  The second component collects the backoff waits.
Both except clauses (Timeout and RequestException) apply the identical
retry policy, differing only in log text, so they share one branch here. -/
def fetchGo (att : Nat → AttemptOutcome) (retries : Nat) :
    List Nat → FetchRes × List Nat
  | [] => (FetchRes.noneReturned, [])
  | attempt :: restAttempts =>
      match attemptResult (att attempt) with
      | Except.ok p => (FetchRes.returned p.1 p.2, [])
      | Except.error e =>
          if attempt < retries - 1 then
            let r := fetchGo att retries restAttempts
            (r.1, 2 ^ attempt :: r.2)
          else (FetchRes.raised e, [])

/-- fetch_url_with_retry(url, retries): the loop over range(retries).  The
per-attempt random politeness delay has no observable effect and is omitted. -/
def fetch_url_with_retry (att : Nat → AttemptOutcome) (retries : Nat) :
    FetchRes × List Nat :=
  fetchGo att retries (List.range retries)

/-- str(e) of the exceptions; the exact text comes from the requests library
and is modelled representatively (for HTTPError it contains the status). -/
def reqErrStr (url : String) : ReqErr → String
  | ReqErr.timeout => s!"Request timed out for url: {url}"
  | ReqErr.httpError status => s!"{status} Error for url: {url}"
  | ReqErr.transportError m => m

/-- Outcome of the href loop of crawl_url: either completed, with the trace of
record calls and the links_to_crawl list, or aborted by an exception (a
ValueError from urljoin), keeping state mutations made before it; the
collected links are then discarded because control leaves the try block. -/
inductive HrefsOut where
  | ok (s : St) (tr : List Event) (links : List (String × String))
  | exc (s : St) (tr : List Event) (msg : String)

/-- The `for link in soup.find_all(...)` loop of crawler.py: skip mailto and
tel hrefs, resolve with urljoin, collect valid absolute URLs into
links_to_crawl tagged with the current url as origin, record invalid ones. -/
def processHrefs (url : String) : List String → St → HrefsOut
  | [], s => HrefsOut.ok s [] []
  | href :: rest, s =>
      if is_mailto_link href then processHrefs url rest s
      else if is_tel_link href then processHrefs url rest s
      else
        match urljoinE url href with
        | Except.error m => HrefsOut.exc s [] m
        | Except.ok absolute =>
            if is_valid_url absolute then
              match processHrefs url rest s with
              | HrefsOut.ok s' tr links => HrefsOut.ok s' tr ((absolute, url) :: links)
              | HrefsOut.exc s' tr m => HrefsOut.exc s' tr m
            else
              let d := s!"Invalid URL: {absolute}"
              let s1 := record s url d
              match processHrefs url rest s1 with
              | HrefsOut.ok s' tr links =>
                  HrefsOut.ok s' (Event.record url d :: tr) links
              | HrefsOut.exc s' tr m =>
                  HrefsOut.exc s' (Event.record url d :: tr) m

end Crawler

/-- The ThreadPoolExecutor dispatch loop, linearised: for each collected link,
under the visited lock, skip it if already visited, otherwise run the child
crawl (which re-checks and claims under the same lock).  Identical in both
crawler.py and crawler_selenium.py. -/
def crawlChildren (child : String → Option String → St → St × List Event) :
    List (String × String) → St → St × List Event
  | [], s => (s, [])
  | (lu, origin) :: rest, s =>
      if lu ∈ s.visited then crawlChildren child rest s
      else
        let r1 := child lu (some origin) s
        let r2 := crawlChildren child rest r1.1
        (r2.1, r1.2 ++ r2.2)

namespace Crawler
open UrlLib

/-- One level of crawl_url of crawler.py below the depth check: the visited
check-and-insert under the lock, the domain check, the fetch, and the three
exception/branch handlers.  `child` is the recursive call at depth + 1.
Python's `origin_url or url` is modelled as Option.getD: an origin, when
present, is the URL of a previously crawled page and is never the falsy
empty string. -/
def crawlStep (td : String) (fetcher : String → FetchRes)
    (child : String → Option String → St → St × List Event)
    (url : String) (origin_url : Option String) (s : St) : St × List Event :=
  if url ∈ s.visited then (s, [Event.claimFail url])
  else
    let s0 : St := { s with visited := url :: s.visited }
    if is_target_domain url td = false then (s0, [Event.claimOk url])
    else
      match fetcher url with
      | FetchRes.returned status hrefs =>
          if status = 200 then
            match processHrefs url hrefs s0 with
            | HrefsOut.ok s1 t1 links =>
                let r2 := crawlChildren child links s1
                (r2.1, Event.claimOk url :: Event.fetch url :: (t1 ++ r2.2))
            | HrefsOut.exc s1 t1 m =>
                let origin := origin_url.getD url
                let d := s!"{url} - Error: {m}"
                (record s1 origin d,
                 Event.claimOk url :: Event.fetch url ::
                   (t1 ++ [Event.record origin d]))
          else if 400 ≤ status then
            let origin := origin_url.getD url
            let d := s!"{url} - Status: {status}"
            (record s0 origin d,
             [Event.claimOk url, Event.fetch url, Event.record origin d])
          else (s0, [Event.claimOk url, Event.fetch url])
      | FetchRes.raised e =>
          let origin := origin_url.getD url
          let d := s!"{url} - Error: {reqErrStr url e}"
          (record s0 origin d,
           [Event.claimOk url, Event.fetch url, Event.record origin d])
      | FetchRes.noneReturned =>
          let origin := origin_url.getD url
          let d := s!"{url} - Error: NoneType object has no attribute status_code"
          (record s0 origin d,
           [Event.claimOk url, Event.fetch url, Event.record origin d])

/-- crawl_url by remaining depth budget; budget 0 is the
`current_depth > max_depth` early return. -/
def crawlGo (td : String) (fetcher : String → FetchRes) :
    Nat → String → Option String → St → St × List Event
  | 0, _, _, s => (s, [])
  | b + 1, url, origin, s => crawlStep td fetcher (crawlGo td fetcher b) url origin s

/-- crawl_url(url, visited, broken_links, target_domain, origin_url,
max_workers, max_depth, current_depth).  The budget max_depth + 1 -
current_depth is 0 exactly when current_depth > max_depth. -/
def crawl_url (td : String) (fetcher : String → FetchRes) (url : String)
    (origin_url : Option String) (max_depth current_depth : Nat) (s : St) :
    St × List Event :=
  crawlGo td fetcher (max_depth + 1 - current_depth) url origin_url s

/-- The fetcher of crawler.py: fetch_url_with_retry with the default
retries=MAX_RETRIES, transport behaviour given by the oracle `oc`. -/
def httpFetcher (oc : String → Nat → AttemptOutcome) (url : String) : FetchRes :=
  (fetch_url_with_retry (oc url) MAX_RETRIES).1

end Crawler

namespace Selenium
open UrlLib

/-- is_rbo_domain of crawler_selenium.py: "rbo.org.uk" as a substring of the
parsed netloc; a parse failure yields False.  (is_valid_url and
is_mailto_link of crawler_selenium.py are character-for-character copies of
the ones in crawler.py, so the `Crawler` definitions are reused.) -/
def is_rbo_domain (url : String) : Bool :=
  match urlparseE url "" with
  | Except.ok r => strContains r.netloc "rbo.org.uk"
  | Except.error _ => false

/-- What one driver.get navigation yields: a rendered page with the href
attribute of each anchor (None when absent), a page-load timeout, a
WebDriverException, or another exception. -/
inductive SelFetch where
  | loaded (hrefs : List (Option String))
  | timeoutExc
  | webDriverExc (msg : String)
  | otherExc (msg : String)

/-- The anchor loop of crawler_selenium.py: skip absent or empty hrefs and
mailto links (there is no tel check in this file), resolve with urljoin,
collect valid absolute URLs, record invalid ones.  The loop body is wrapped
in its own try/except that prints and continues, so a urljoin ValueError
skips just that link. -/
def processHrefs (url : String) :
    List (Option String) → St → St × List Event × List (String × String)
  | [], s => (s, [], [])
  | none :: rest, s => processHrefs url rest s
  | some h :: rest, s =>
      if h = "" then processHrefs url rest s
      else if Crawler.is_mailto_link h then processHrefs url rest s
      else
        match urljoinE url h with
        | Except.error _ => processHrefs url rest s
        | Except.ok absolute =>
            if Crawler.is_valid_url absolute then
              let r := processHrefs url rest s
              (r.1, r.2.1, (absolute, url) :: r.2.2)
            else
              let d := s!"Invalid URL: {absolute}"
              let s1 := record s url d
              let r := processHrefs url rest s1
              (r.1, Event.record url d :: r.2.1, r.2.2)

/-- One level of crawl_url of crawler_selenium.py below the depth check. -/
def crawlStep (fetchS : String → SelFetch)
    (child : String → Option String → St → St × List Event)
    (url : String) (origin_url : Option String) (s : St) : St × List Event :=
  if url ∈ s.visited then (s, [Event.claimFail url])
  else
    let s0 : St := { s with visited := url :: s.visited }
    if is_rbo_domain url = false then (s0, [Event.claimOk url])
    else
      match fetchS url with
      | SelFetch.loaded hrefs =>
          let p := processHrefs url hrefs s0
          let r2 := crawlChildren child p.2.2 p.1
          (r2.1, Event.claimOk url :: Event.fetch url :: (p.2.1 ++ r2.2))
      | SelFetch.timeoutExc =>
          let origin := origin_url.getD url
          let d := s!"{url} - Error: Page load timeout"
          (record s0 origin d,
           [Event.claimOk url, Event.fetch url, Event.record origin d])
      | SelFetch.webDriverExc m =>
          let origin := origin_url.getD url
          let d := s!"{url} - Error: {m}"
          (record s0 origin d,
           [Event.claimOk url, Event.fetch url, Event.record origin d])
      | SelFetch.otherExc m =>
          let origin := origin_url.getD url
          let d := s!"{url} - Error: {m}"
          (record s0 origin d,
           [Event.claimOk url, Event.fetch url, Event.record origin d])

/-- crawl_url of crawler_selenium.py by remaining depth budget. -/
def crawlGo (fetchS : String → SelFetch) :
    Nat → String → Option String → St → St × List Event
  | 0, _, _, s => (s, [])
  | b + 1, url, origin, s => crawlStep fetchS (crawlGo fetchS b) url origin s

/-- crawl_url(url, visited, broken_links, origin_url, max_workers, max_depth,
current_depth) of crawler_selenium.py. -/
def crawl_url (fetchS : String → SelFetch) (url : String)
    (origin_url : Option String) (max_depth current_depth : Nat) (s : St) :
    St × List Event :=
  crawlGo fetchS (max_depth + 1 - current_depth) url origin_url s

end Selenium

/-- tryClaim of the visited registry: under the visited lock, return false if
present, else insert and return true (lines 99-102 of crawler.py). -/
def tryClaim (visited : List String) (url : String) : Bool × List String :=
  if url ∈ visited then (false, visited) else (true, url :: visited)

/-- An arbitrary interleaving of concurrent tryClaim callers: the lock
serialises them into some sequence of requests, processed one at a time. -/
def runClaims : List String → List String → List (String × Bool) × List String
  | visited, [] => ([], visited)
  | visited, u :: reqs =>
      let c := tryClaim visited u
      let r := runClaims c.2 reqs
      ((u, c.1) :: r.1, r.2)

/-- The urls of the successful claims of a trace, in order. -/
def claimUrls (tr : List Event) : List String :=
  tr.filterMap fun e =>
    match e with
    | Event.claimOk u => some u
    | _ => none

/-- The urls fetched in a trace, in order. -/
def fetchUrls (tr : List Event) : List String :=
  tr.filterMap fun e =>
    match e with
    | Event.fetch u => some u
    | _ => none

/-- The record calls of a trace, in order. -/
def recordsOf (tr : List Event) : List (String × String) :=
  tr.filterMap fun e =>
    match e with
    | Event.record o d => some (o, d)
    | _ => none

/-- Scanning the trace left to right with the set of claimed urls (seeded by
the initially visited set): true iff every fetch is preceded by a successful
claim of the same url. -/
def fetchesClaimed : List String → List Event → Bool
  | _, [] => true
  | cl, Event.claimOk u :: tr => fetchesClaimed (u :: cl) tr
  | cl, Event.fetch u :: tr => decide (u ∈ cl) && fetchesClaimed cl tr
  | cl, _ :: tr => fetchesClaimed cl tr

/-- Run invariant tying a start state to an outcome (final state, trace):
visited membership is permanent; each successfully claimed url was new and
stays visited; visited grows only by claims; no url is claimed successfully
twice; every fetched url was claimed, no url is fetched twice; and every
fetch is preceded by its claim. -/
def RunInv (s : St) (out : St × List Event) : Prop :=
  (∀ x, x ∈ s.visited → x ∈ out.1.visited) ∧
  (∀ u, u ∈ claimUrls out.2 → u ∉ s.visited ∧ u ∈ out.1.visited) ∧
  (∀ x, x ∈ out.1.visited → x ∈ s.visited ∨ x ∈ claimUrls out.2) ∧
  (claimUrls out.2).Nodup ∧
  (∀ u, u ∈ fetchUrls out.2 → u ∈ claimUrls out.2) ∧
  (fetchUrls out.2).Nodup ∧
  fetchesClaimed s.visited out.2 = true

/-- Closed form of the links_to_crawl list a 200 page with hrefs hs produces
in crawler.py (when no href aborts resolution). -/
def crawlLinks (url : String) (hs : List String) : List (String × String) :=
  hs.filterMap fun h =>
    if Crawler.is_mailto_link h || Crawler.is_tel_link h then none
    else
      match UrlLib.urljoinE url h with
      | Except.error _ => none
      | Except.ok a => if Crawler.is_valid_url a then some (a, url) else none

/-- Closed form of the Invalid-URL records the same loop produces, in order. -/
def invalidRecords (url : String) (hs : List String) : List (String × String) :=
  hs.filterMap fun h =>
    if Crawler.is_mailto_link h || Crawler.is_tel_link h then none
    else
      match UrlLib.urljoinE url h with
      | Except.error _ => none
      | Except.ok a =>
          if Crawler.is_valid_url a then none
          else some (url, s!"Invalid URL: {a}")

/-- An empty run state. -/
def st0 : St := ⟨[], [], []⟩

/-- Output state of the href loop, for either outcome. -/
def Crawler.HrefsOut.outSt : Crawler.HrefsOut → St
  | Crawler.HrefsOut.ok s _ _ => s
  | Crawler.HrefsOut.exc s _ _ => s

/-- Output trace of the href loop, for either outcome. -/
def Crawler.HrefsOut.outTr : Crawler.HrefsOut → List Event
  | Crawler.HrefsOut.ok _ tr _ => tr
  | Crawler.HrefsOut.exc _ tr _ => tr

theorem startsWithL_iff (p : List Char) : ∀ l, UrlLib.startsWithL p l = true ↔ p <+: l := by
  induction p with
  | nil => intro l; simp [UrlLib.startsWithL]
  | cons a ps ih =>
    intro l
    cases l with
    | nil => simp [UrlLib.startsWithL]
    | cons c cs =>
      simp only [UrlLib.startsWithL, Bool.and_eq_true, beq_iff_eq, ih,
        List.cons_prefix_cons]

theorem containsL_iff (p : List Char) : ∀ l, UrlLib.containsL p l = true ↔ p <:+: l := by
  intro l
  induction l with
  | nil => cases p <;> simp [UrlLib.containsL]
  | cons c cs ih =>
    simp only [UrlLib.containsL, Bool.or_eq_true, startsWithL_iff, ih, List.infix_cons_iff]

theorem strContains_iff (s sub : String) :
    UrlLib.strContains s sub = true ↔ sub.data <:+: s.data := by
  simpa [UrlLib.strContains] using containsL_iff sub.data s.data

theorem fetchGo_ne_none (att : Nat → Crawler.AttemptOutcome) (retries : Nat) :
    ∀ l : List Nat, (∃ a ∈ l, ¬ a < retries - 1) →
      (Crawler.fetchGo att retries l).1 ≠ Crawler.FetchRes.noneReturned := by
  intro l
  induction l with
  | nil => rintro ⟨a, ha, -⟩; cases ha
  | cons a rest ih =>
    rintro ⟨w, hw, hnlt⟩
    show (Crawler.fetchGo att retries (a :: rest)).1 ≠ _
    rw [Crawler.fetchGo]
    cases h : Crawler.attemptResult (att a) with
    | ok p => simp
    | error e =>
      by_cases hlt : a < retries - 1
      · simp only [if_pos hlt]
        apply ih
        refine ⟨w, ?_, hnlt⟩
        rcases List.mem_cons.mp hw with rfl | hmem
        · exact absurd hlt hnlt
        · exact hmem
      · simp [if_neg hlt]

theorem fetch_ne_none (att : Nat → Crawler.AttemptOutcome) (retries : Nat)
    (h : 1 ≤ retries) :
    (Crawler.fetch_url_with_retry att retries).1 ≠ Crawler.FetchRes.noneReturned := by
  apply fetchGo_ne_none
  exact ⟨retries - 1, List.mem_range.mpr (by omega), by omega⟩

theorem claimUrls_append (t1 t2 : List Event) :
    claimUrls (t1 ++ t2) = claimUrls t1 ++ claimUrls t2 :=
  List.filterMap_append t1 t2 _

theorem fetchUrls_append (t1 t2 : List Event) :
    fetchUrls (t1 ++ t2) = fetchUrls t1 ++ fetchUrls t2 :=
  List.filterMap_append t1 t2 _

theorem fetchesClaimed_congr : ∀ (tr : List Event) (cl cl' : List String),
    (∀ x, x ∈ cl ↔ x ∈ cl') → fetchesClaimed cl tr = fetchesClaimed cl' tr := by
  intro tr
  induction tr with
  | nil => intro _ _ _; rfl
  | cons e tr ih =>
    intro cl cl' h
    cases e with
    | claimOk u =>
      show fetchesClaimed (u :: cl) tr = fetchesClaimed (u :: cl') tr
      apply ih
      intro x
      simp only [List.mem_cons, h x]
    | claimFail u => exact ih cl cl' h
    | fetch u =>
      show (decide (u ∈ cl) && fetchesClaimed cl tr) =
           (decide (u ∈ cl') && fetchesClaimed cl' tr)
      rw [decide_eq_decide.mpr (h u), ih cl cl' h]
    | record o d => exact ih cl cl' h

theorem fetchesClaimed_mono : ∀ (tr : List Event) (cl cl' : List String),
    (∀ x, x ∈ cl → x ∈ cl') →
    fetchesClaimed cl tr = true → fetchesClaimed cl' tr = true := by
  intro tr
  induction tr with
  | nil => intro _ _ _ _; rfl
  | cons e tr ih =>
    intro cl cl' h ht
    cases e with
    | claimOk u =>
      apply ih (u :: cl) (u :: cl') _ ht
      intro x hx
      rcases List.mem_cons.mp hx with rfl | hx
      · exact List.mem_cons_self _ _
      · exact List.mem_cons_of_mem _ (h x hx)
    | claimFail u => exact ih cl cl' h ht
    | fetch u =>
      simp only [fetchesClaimed, Bool.and_eq_true, decide_eq_true_eq] at ht ⊢
      exact ⟨h u ht.1, ih cl cl' h ht.2⟩
    | record o d => exact ih cl cl' h ht

theorem claimUrls_claimOk (u : String) (tr : List Event) :
    claimUrls (Event.claimOk u :: tr) = u :: claimUrls tr := rfl

theorem claimUrls_claimFail (u : String) (tr : List Event) :
    claimUrls (Event.claimFail u :: tr) = claimUrls tr := rfl

theorem claimUrls_fetch (u : String) (tr : List Event) :
    claimUrls (Event.fetch u :: tr) = claimUrls tr := rfl

theorem claimUrls_record (o d : String) (tr : List Event) :
    claimUrls (Event.record o d :: tr) = claimUrls tr := rfl

theorem fetchUrls_claimOk (u : String) (tr : List Event) :
    fetchUrls (Event.claimOk u :: tr) = fetchUrls tr := rfl

theorem fetchUrls_claimFail (u : String) (tr : List Event) :
    fetchUrls (Event.claimFail u :: tr) = fetchUrls tr := rfl

theorem fetchUrls_fetch (u : String) (tr : List Event) :
    fetchUrls (Event.fetch u :: tr) = u :: fetchUrls tr := rfl

theorem fetchUrls_record (o d : String) (tr : List Event) :
    fetchUrls (Event.record o d :: tr) = fetchUrls tr := rfl

theorem fetchesClaimed_append : ∀ (t1 t2 : List Event) (cl : List String),
    fetchesClaimed cl (t1 ++ t2) =
      (fetchesClaimed cl t1 && fetchesClaimed (claimUrls t1 ++ cl) t2) := by
  intro t1
  induction t1 with
  | nil => intro t2 cl; simp [claimUrls, fetchesClaimed]
  | cons e t1 ih =>
    intro t2 cl
    cases e with
    | claimOk u =>
      simp only [List.cons_append, fetchesClaimed, claimUrls_claimOk, List.append_eq, ih]
      congr 1
      apply fetchesClaimed_congr
      intro x
      simp only [List.mem_append, List.mem_cons]
      tauto
    | claimFail u =>
      simp only [List.cons_append, fetchesClaimed, claimUrls_claimFail, List.append_eq, ih]
    | fetch u =>
      simp only [List.cons_append, fetchesClaimed, claimUrls_fetch, List.append_eq, ih,
        Bool.and_assoc]
    | record o d =>
      simp only [List.cons_append, fetchesClaimed, claimUrls_record, List.append_eq, ih]

theorem fetchesClaimed_of_no_fetch : ∀ (tr : List Event) (cl : List String),
    fetchUrls tr = [] → fetchesClaimed cl tr = true := by
  intro tr
  induction tr with
  | nil => intro _ _; rfl
  | cons e tr ih =>
    intro cl h
    cases e with
    | claimOk u => exact ih (u :: cl) h
    | claimFail u => exact ih cl h
    | fetch u => simp [fetchUrls] at h
    | record o d => exact ih cl h

theorem runInv_of_inert {s : St} {out : St × List Event}
    (hv : out.1.visited = s.visited)
    (hc : claimUrls out.2 = []) (hf : fetchUrls out.2 = []) : RunInv s out := by
  refine ⟨?_, ?_, ?_, ?_, ?_, ?_, ?_⟩
  · intro x hx; rw [hv]; exact hx
  · intro u hu; rw [hc] at hu; cases hu
  · intro x hx; rw [hv] at hx; exact Or.inl hx
  · rw [hc]; exact List.nodup_nil
  · intro u hu; rw [hf] at hu; cases hu
  · rw [hf]; exact List.nodup_nil
  · exact fetchesClaimed_of_no_fetch _ _ hf

theorem runInv_nil (s : St) : RunInv s (s, []) :=
  runInv_of_inert rfl rfl rfl

theorem runInv_claimFail (s : St) (url : String) :
    RunInv s (s, [Event.claimFail url]) :=
  runInv_of_inert rfl rfl rfl

theorem runInv_record (s : St) (o d : String) :
    RunInv s (record s o d, [Event.record o d]) :=
  runInv_of_inert rfl rfl rfl

theorem runInv_comp {s : St} {s1 s2 : St} {t1 t2 : List Event}
    (h1 : RunInv s (s1, t1)) (h2 : RunInv s1 (s2, t2)) :
    RunInv s (s2, t1 ++ t2) := by
  obtain ⟨m1, c1, v1, n1, f1, g1, fc1⟩ := h1
  obtain ⟨m2, c2, v2, n2, f2, g2, fc2⟩ := h2
  refine ⟨?_, ?_, ?_, ?_, ?_, ?_, ?_⟩
  · intro x hx; exact m2 x (m1 x hx)
  · intro u hu
    rw [claimUrls_append] at hu
    rcases List.mem_append.mp hu with hu | hu
    · exact ⟨(c1 u hu).1, m2 u (c1 u hu).2⟩
    · refine ⟨fun hs => (c2 u hu).1 (m1 u hs), (c2 u hu).2⟩
  · intro x hx
    rw [claimUrls_append]
    rcases v2 x hx with hx1 | hx1
    · rcases v1 x hx1 with h | h
      · exact Or.inl h
      · exact Or.inr (List.mem_append.mpr (Or.inl h))
    · exact Or.inr (List.mem_append.mpr (Or.inr hx1))
  · rw [claimUrls_append]
    refine List.nodup_append.mpr ⟨n1, n2, ?_⟩
    intro u hu1 hu2
    exact (c2 u hu2).1 ((c1 u hu1).2)
  · intro u hu
    rw [fetchUrls_append] at hu
    rw [claimUrls_append]
    rcases List.mem_append.mp hu with hu | hu
    · exact List.mem_append.mpr (Or.inl (f1 u hu))
    · exact List.mem_append.mpr (Or.inr (f2 u hu))
  · rw [fetchUrls_append]
    refine List.nodup_append.mpr ⟨g1, g2, ?_⟩
    intro u hu1 hu2
    exact (c2 u (f2 u hu2)).1 ((c1 u (f1 u hu1)).2)
  · show fetchesClaimed s.visited ((t1 ++ t2) : List Event) = true
    rw [fetchesClaimed_append, Bool.and_eq_true]
    refine ⟨fc1, ?_⟩
    apply fetchesClaimed_mono t2 s1.visited
    · intro x hx
      rcases v1 x hx with h | h
      · exact List.mem_append.mpr (Or.inr h)
      · exact List.mem_append.mpr (Or.inl h)
    · exact fc2

theorem runInv_step {url : String} {s : St} {bodyOut : St × List Event}
    (hnew : url ∉ s.visited)
    (hbody : RunInv { s with visited := url :: s.visited } bodyOut) :
    RunInv s (bodyOut.1, Event.claimOk url :: Event.fetch url :: bodyOut.2) := by
  obtain ⟨m2, c2, v2, n2, f2, g2, fc2⟩ := hbody
  have hsv : ({ s with visited := url :: s.visited } : St).visited = url :: s.visited := rfl
  rw [hsv] at m2 v2
  have hbc : ∀ u, u ∈ claimUrls bodyOut.2 → u ≠ url := by
    intro u hu he
    have := (c2 u hu).1
    rw [hsv] at this
    exact this (he ▸ List.mem_cons_self _ _)
  refine ⟨?_, ?_, ?_, ?_, ?_, ?_, ?_⟩
  · intro x hx
    exact m2 x (List.mem_cons_of_mem _ hx)
  · intro u hu
    rw [claimUrls_claimOk, claimUrls_fetch] at hu
    rcases List.mem_cons.mp hu with rfl | hu
    · exact ⟨hnew, m2 u (List.mem_cons_self _ _)⟩
    · refine ⟨?_, (c2 u hu).2⟩
      intro hs
      exact (c2 u hu).1 (by rw [hsv]; exact List.mem_cons_of_mem _ hs)
  · intro x hx
    rw [claimUrls_claimOk, claimUrls_fetch]
    rcases v2 x hx with hx1 | hx1
    · rcases List.mem_cons.mp hx1 with rfl | hx1
      · exact Or.inr (List.mem_cons_self _ _)
      · exact Or.inl hx1
    · exact Or.inr (List.mem_cons_of_mem _ hx1)
  · rw [claimUrls_claimOk, claimUrls_fetch]
    refine List.nodup_cons.mpr ⟨?_, n2⟩
    intro hu
    exact hbc url hu rfl
  · intro u hu
    rw [fetchUrls_claimOk, fetchUrls_fetch] at hu
    rw [claimUrls_claimOk, claimUrls_fetch]
    rcases List.mem_cons.mp hu with rfl | hu
    · exact List.mem_cons_self _ _
    · exact List.mem_cons_of_mem _ (f2 u hu)
  · rw [fetchUrls_claimOk, fetchUrls_fetch]
    refine List.nodup_cons.mpr ⟨?_, g2⟩
    intro hu
    exact hbc url (f2 url hu) rfl
  · show fetchesClaimed s.visited (Event.claimOk url :: Event.fetch url :: bodyOut.2) = true
    show (decide (url ∈ url :: s.visited) && fetchesClaimed (url :: s.visited) bodyOut.2) = true
    rw [Bool.and_eq_true]
    refine ⟨decide_eq_true (List.mem_cons_self _ _), ?_⟩
    rw [hsv] at fc2
    exact fc2

theorem runInv_claimOnly (s : St) (url : String) (hnew : url ∉ s.visited) :
    RunInv s ({ s with visited := url :: s.visited }, [Event.claimOk url]) := by
  refine ⟨?_, ?_, ?_, ?_, ?_, ?_, ?_⟩
  · intro x hx; exact List.mem_cons_of_mem _ hx
  · intro u hu
    rcases List.mem_cons.mp hu with rfl | hu
    · exact ⟨hnew, List.mem_cons_self _ _⟩
    · cases hu
  · intro x hx
    rcases List.mem_cons.mp hx with rfl | hx
    · exact Or.inr (List.mem_cons_self _ _)
    · exact Or.inl hx
  · exact List.nodup_singleton _
  · intro u hu; cases hu
  · exact List.nodup_nil
  · rfl

theorem runInv_children
    (child : String → Option String → St → St × List Event)
    (hchild : ∀ u o s, RunInv s (child u o s)) :
    ∀ (links : List (String × String)) (s : St),
      RunInv s (crawlChildren child links s) := by
  intro links
  induction links with
  | nil => intro s; exact runInv_nil s
  | cons p rest ih =>
    intro s
    show RunInv s (crawlChildren child (p :: rest) s)
    rw [crawlChildren]
    by_cases hmem : p.1 ∈ s.visited
    · simp only [if_pos hmem]
      exact ih s
    · simp only [if_neg hmem]
      have h1 := hchild p.1 (some p.2) s
      have h2 := ih (child p.1 (some p.2) s).1
      exact runInv_comp h1 h2

theorem processHrefs_inert (url : String) : ∀ (hs : List String) (s : St),
    (Crawler.processHrefs url hs s).outSt.visited = s.visited ∧
    claimUrls (Crawler.processHrefs url hs s).outTr = [] ∧
    fetchUrls (Crawler.processHrefs url hs s).outTr = [] := by
  intro hs
  induction hs with
  | nil => intro s; exact ⟨rfl, rfl, rfl⟩
  | cons h rest ih =>
    intro s
    simp only [Crawler.processHrefs]
    split
    · exact ih s
    · split
      · exact ih s
      · split
        · exact ⟨rfl, rfl, rfl⟩
        · rename_i a heq
          split
          · cases hrec : Crawler.processHrefs url rest s with
            | ok s' tr links =>
              have hh := ih s; rw [hrec] at hh
              simp only [hrec]
              exact hh
            | exc s' tr m =>
              have hh := ih s; rw [hrec] at hh
              simp only [hrec]
              exact hh
          · cases hrec : Crawler.processHrefs url rest (record s url s!"Invalid URL: {a}") with
            | ok s' tr links =>
              have hh := ih (record s url s!"Invalid URL: {a}"); rw [hrec] at hh
              simp only [hrec]
              refine ⟨hh.1.trans rfl, ?_, ?_⟩
              · show claimUrls (Event.record url s!"Invalid URL: {a}" :: tr) = []
                rw [claimUrls_record]; exact hh.2.1
              · show fetchUrls (Event.record url s!"Invalid URL: {a}" :: tr) = []
                rw [fetchUrls_record]; exact hh.2.2
            | exc s' tr m =>
              have hh := ih (record s url s!"Invalid URL: {a}"); rw [hrec] at hh
              simp only [hrec]
              refine ⟨hh.1.trans rfl, ?_, ?_⟩
              · show claimUrls (Event.record url s!"Invalid URL: {a}" :: tr) = []
                rw [claimUrls_record]; exact hh.2.1
              · show fetchUrls (Event.record url s!"Invalid URL: {a}" :: tr) = []
                rw [fetchUrls_record]; exact hh.2.2

theorem processHrefsSel_inert (url : String) : ∀ (hs : List (Option String)) (s : St),
    (Selenium.processHrefs url hs s).1.visited = s.visited ∧
    claimUrls (Selenium.processHrefs url hs s).2.1 = [] ∧
    fetchUrls (Selenium.processHrefs url hs s).2.1 = [] := by
  intro hs
  induction hs with
  | nil => intro s; exact ⟨rfl, rfl, rfl⟩
  | cons h rest ih =>
    intro s
    cases h with
    | none => exact ih s
    | some h =>
      simp only [Selenium.processHrefs]
      split
      · exact ih s
      · split
        · exact ih s
        · split
          · exact ih s
          · rename_i a heq
            split
            · exact ih s
            · have hh := ih (record s url s!"Invalid URL: {a}")
              refine ⟨hh.1.trans rfl, ?_, ?_⟩
              · rw [claimUrls_record]; exact hh.2.1
              · rw [fetchUrls_record]; exact hh.2.2

theorem runInv_crawlStep (td : String) (fetcher : String → Crawler.FetchRes)
    (child : String → Option String → St → St × List Event)
    (hchild : ∀ u o s, RunInv s (child u o s)) :
    ∀ url o s, RunInv s (Crawler.crawlStep td fetcher child url o s) := by
  intro url o s
  simp only [Crawler.crawlStep]
  by_cases hmem : url ∈ s.visited
  · simp only [if_pos hmem]
    exact runInv_claimFail s url
  · simp only [if_neg hmem]
    by_cases hdom : Crawler.is_target_domain url td = false
    · simp only [if_pos hdom]
      exact runInv_claimOnly s url hmem
    · simp only [if_neg hdom]
      cases hf : fetcher url with
      | returned status hrefs =>
        by_cases h200 : status = 200
        · simp only [if_pos h200]
          cases hph : Crawler.processHrefs url hrefs { s with visited := url :: s.visited } with
          | ok s1 t1 links =>
            have hinert := processHrefs_inert url hrefs { s with visited := url :: s.visited }
            rw [hph] at hinert
            have h1 : RunInv { s with visited := url :: s.visited } (s1, t1) :=
              runInv_of_inert hinert.1 hinert.2.1 hinert.2.2
            have h2 := runInv_children child hchild links s1
            rcases hcc : crawlChildren child links s1 with ⟨s2, t2⟩
            rw [hcc] at h2
            have hb := runInv_comp h1 h2
            simp only [hcc]
            exact @runInv_step url s (s2, t1 ++ t2) hmem hb
          | exc s1 t1 m =>
            have hinert := processHrefs_inert url hrefs { s with visited := url :: s.visited }
            rw [hph] at hinert
            have h1 : RunInv { s with visited := url :: s.visited } (s1, t1) :=
              runInv_of_inert hinert.1 hinert.2.1 hinert.2.2
            have h2 := runInv_record s1 (o.getD url) s!"{url} - Error: {m}"
            have hb := runInv_comp h1 h2
            exact @runInv_step url s
              (record s1 (o.getD url) s!"{url} - Error: {m}",
               t1 ++ [Event.record (o.getD url) s!"{url} - Error: {m}"]) hmem hb
        · simp only [if_neg h200]
          by_cases h400 : 400 ≤ status
          · simp only [if_pos h400]
            exact @runInv_step url s
              (record { s with visited := url :: s.visited } (o.getD url)
                 s!"{url} - Status: {status}",
               [Event.record (o.getD url) s!"{url} - Status: {status}"]) hmem
              (runInv_record _ _ _)
          · simp only [if_neg h400]
            exact @runInv_step url s ({ s with visited := url :: s.visited }, []) hmem
              (runInv_nil _)
      | raised e =>
        exact @runInv_step url s
          (record { s with visited := url :: s.visited } (o.getD url)
             s!"{url} - Error: {Crawler.reqErrStr url e}",
           [Event.record (o.getD url) s!"{url} - Error: {Crawler.reqErrStr url e}"]) hmem
          (runInv_record _ _ _)
      | noneReturned =>
        exact @runInv_step url s
          (record { s with visited := url :: s.visited } (o.getD url)
             s!"{url} - Error: NoneType object has no attribute status_code",
           [Event.record (o.getD url)
              s!"{url} - Error: NoneType object has no attribute status_code"]) hmem
          (runInv_record _ _ _)

theorem runInv_crawlGo (td : String) (fetcher : String → Crawler.FetchRes) :
    ∀ b url o s, RunInv s (Crawler.crawlGo td fetcher b url o s) := by
  intro b
  induction b with
  | zero => intro url o s; exact runInv_nil s
  | succ b ih =>
    intro url o s
    exact runInv_crawlStep td fetcher (Crawler.crawlGo td fetcher b)
      (fun u oo ss => ih u oo ss) url o s

theorem runInv_crawlStepSel (fetchS : String → Selenium.SelFetch)
    (child : String → Option String → St → St × List Event)
    (hchild : ∀ u o s, RunInv s (child u o s)) :
    ∀ url o s, RunInv s (Selenium.crawlStep fetchS child url o s) := by
  intro url o s
  simp only [Selenium.crawlStep]
  by_cases hmem : url ∈ s.visited
  · simp only [if_pos hmem]
    exact runInv_claimFail s url
  · simp only [if_neg hmem]
    by_cases hdom : Selenium.is_rbo_domain url = false
    · simp only [if_pos hdom]
      exact runInv_claimOnly s url hmem
    · simp only [if_neg hdom]
      cases hf : fetchS url with
      | loaded hrefs =>
        have hinert := processHrefsSel_inert url hrefs { s with visited := url :: s.visited }
        have h1 : RunInv { s with visited := url :: s.visited }
            ((Selenium.processHrefs url hrefs { s with visited := url :: s.visited }).1,
             (Selenium.processHrefs url hrefs { s with visited := url :: s.visited }).2.1) :=
          runInv_of_inert hinert.1 hinert.2.1 hinert.2.2
        have h2 := runInv_children child hchild
          (Selenium.processHrefs url hrefs { s with visited := url :: s.visited }).2.2
          (Selenium.processHrefs url hrefs { s with visited := url :: s.visited }).1
        rcases hcc : crawlChildren child
            (Selenium.processHrefs url hrefs { s with visited := url :: s.visited }).2.2
            (Selenium.processHrefs url hrefs { s with visited := url :: s.visited }).1
          with ⟨s2, t2⟩
        rw [hcc] at h2
        have hb := runInv_comp h1 h2
        simp only [hcc]
        exact @runInv_step url s
          (s2, (Selenium.processHrefs url hrefs { s with visited := url :: s.visited }).2.1 ++ t2)
          hmem hb
      | timeoutExc =>
        exact @runInv_step url s
          (record { s with visited := url :: s.visited } (o.getD url)
             s!"{url} - Error: Page load timeout",
           [Event.record (o.getD url) s!"{url} - Error: Page load timeout"]) hmem
          (runInv_record _ _ _)
      | webDriverExc m =>
        exact @runInv_step url s
          (record { s with visited := url :: s.visited } (o.getD url) s!"{url} - Error: {m}",
           [Event.record (o.getD url) s!"{url} - Error: {m}"]) hmem
          (runInv_record _ _ _)
      | otherExc m =>
        exact @runInv_step url s
          (record { s with visited := url :: s.visited } (o.getD url) s!"{url} - Error: {m}",
           [Event.record (o.getD url) s!"{url} - Error: {m}"]) hmem
          (runInv_record _ _ _)

theorem runInv_crawlGoSel (fetchS : String → Selenium.SelFetch) :
    ∀ b url o s, RunInv s (Selenium.crawlGo fetchS b url o s) := by
  intro b
  induction b with
  | zero => intro url o s; exact runInv_nil s
  | succ b ih =>
    intro url o s
    exact runInv_crawlStepSel fetchS (Selenium.crawlGo fetchS b)
      (fun u oo ss => ih u oo ss) url o s

theorem record_visited (s : St) (o d : String) : (record s o d).visited = s.visited := rfl

theorem record_writes (s : St) (o d : String) :
    (record s o d).writes = s.writes ++ [(o, d)] := rfl

theorem record_broken_mem (s : St) (o d : String) (p : String × String) :
    p ∈ (record s o d).broken ↔ p ∈ s.broken ∨ p = (o, d) := by
  show p ∈ (if (o, d) ∈ s.broken then s.broken else s.broken ++ [(o, d)]) ↔ _
  by_cases hmem : (o, d) ∈ s.broken
  · rw [if_pos hmem]
    constructor
    · exact Or.inl
    · rintro (h | rfl)
      · exact h
      · exact hmem
  · rw [if_neg hmem]
    simp [List.mem_append]

theorem runClaims_count : ∀ (reqs vis : List String) (u : String),
    ((runClaims vis reqs).1.count (u, true)) =
      if u ∈ reqs ∧ u ∉ vis then 1 else 0 := by
  intro reqs
  induction reqs with
  | nil => intro vis u; simp [runClaims]
  | cons r rest ih =>
    intro vis u
    simp only [runClaims, tryClaim]
    by_cases hmem : r ∈ vis
    · simp only [if_pos hmem]
      rw [List.count_cons, ih]
      by_cases hur : u = r
      · subst hur
        simp [hmem]
      · simp [List.mem_cons, hur]
    · simp only [if_neg hmem]
      rw [List.count_cons, ih]
      by_cases hur : u = r
      · subst hur
        simp [List.mem_cons, hmem]
      · simp [List.mem_cons, hur, Ne.symm hur]

theorem processHrefs_closed (url : String) : ∀ (hs : List String) (s : St),
    (∀ h ∈ hs, Crawler.is_mailto_link h = false → Crawler.is_tel_link h = false →
        ∃ a, UrlLib.urljoinE url h = Except.ok a) →
    ∃ s1, Crawler.processHrefs url hs s =
        Crawler.HrefsOut.ok s1
          ((invalidRecords url hs).map fun p => Event.record p.1 p.2)
          (crawlLinks url hs) ∧
      s1.visited = s.visited ∧
      s1.writes = s.writes ++ invalidRecords url hs ∧
      (∀ p, p ∈ s1.broken ↔ p ∈ s.broken ∨ p ∈ invalidRecords url hs) := by
  intro hs
  induction hs with
  | nil =>
    intro s _
    refine ⟨s, rfl, rfl, ?_, ?_⟩
    · show s.writes = s.writes ++ []
      rw [List.append_nil]
    · intro p
      show p ∈ s.broken ↔ p ∈ s.broken ∨ p ∈ ([] : List (String × String))
      simp
  | cons h rest ihr =>
    intro s hok
    have hokr : ∀ h' ∈ rest, Crawler.is_mailto_link h' = false →
        Crawler.is_tel_link h' = false →
        ∃ a, UrlLib.urljoinE url h' = Except.ok a :=
      fun h' hm => hok h' (List.mem_cons_of_mem _ hm)
    by_cases hm : Crawler.is_mailto_link h = true
    · have hskip : (Crawler.is_mailto_link h || Crawler.is_tel_link h) = true := by
        rw [hm]; rfl
      obtain ⟨s1, heq, hv, hw, hb⟩ := ihr s hokr
      refine ⟨s1, ?_, hv, ?_, ?_⟩
      · simp only [Crawler.processHrefs, if_pos hm, invalidRecords, crawlLinks,
          List.filterMap_cons, hskip]
        exact heq
      · simp only [invalidRecords, List.filterMap_cons, hskip]
        exact hw
      · simp only [invalidRecords, List.filterMap_cons, hskip]
        exact hb
    · have hm' : Crawler.is_mailto_link h = false := by
        cases hmc : Crawler.is_mailto_link h
        · rfl
        · exact absurd hmc hm
      by_cases ht : Crawler.is_tel_link h = true
      · have hskip : (Crawler.is_mailto_link h || Crawler.is_tel_link h) = true := by
          rw [ht, Bool.or_true]
        obtain ⟨s1, heq, hv, hw, hb⟩ := ihr s hokr
        refine ⟨s1, ?_, hv, ?_, ?_⟩
        · simp only [Crawler.processHrefs, if_neg hm, if_pos ht, invalidRecords, crawlLinks,
            List.filterMap_cons, hskip]
          exact heq
        · simp only [invalidRecords, List.filterMap_cons, hskip]
          exact hw
        · simp only [invalidRecords, List.filterMap_cons, hskip]
          exact hb
      · have ht' : Crawler.is_tel_link h = false := by
          cases htc : Crawler.is_tel_link h
          · rfl
          · exact absurd htc ht
        obtain ⟨a, hj⟩ := hok h (List.mem_cons_self _ _) hm' ht'
        have hskip : (Crawler.is_mailto_link h || Crawler.is_tel_link h) = false := by
          rw [hm', ht']; rfl
        by_cases hvalid : Crawler.is_valid_url a = true
        · obtain ⟨s1, heq, hv, hw, hb⟩ := ihr s hokr
          refine ⟨s1, ?_, hv, ?_, ?_⟩
          · simp only [Crawler.processHrefs, if_neg hm, if_neg ht, hj, if_pos hvalid, heq,
              invalidRecords, crawlLinks, List.filterMap_cons, hskip, Bool.false_eq_true,
              if_false]
          · simp only [invalidRecords, List.filterMap_cons, hskip, Bool.false_eq_true,
              if_false, hj, if_pos hvalid]
            exact hw
          · simp only [invalidRecords, List.filterMap_cons, hskip, Bool.false_eq_true,
              if_false, hj, if_pos hvalid]
            exact hb
        · have hvalid' : Crawler.is_valid_url a = false := by
            cases hvc : Crawler.is_valid_url a
            · rfl
            · exact absurd hvc hvalid
          obtain ⟨s1, heq, hv, hw, hb⟩ :=
            ihr (record s url s!"Invalid URL: {a}") hokr
          refine ⟨s1, ?_, ?_, ?_, ?_⟩
          · simp only [Crawler.processHrefs, if_neg hm, if_neg ht, hj, if_neg hvalid, heq,
              invalidRecords, crawlLinks, List.filterMap_cons, hskip, Bool.false_eq_true,
              if_false, hvalid', List.map_cons]
          · rw [hv, record_visited]
          · rw [hw, record_writes]
            simp only [invalidRecords, List.filterMap_cons, hskip, Bool.false_eq_true,
              if_false, hj, hvalid']
            rw [List.append_assoc, List.singleton_append]
          · intro p
            rw [hb p, record_broken_mem]
            simp only [invalidRecords, List.filterMap_cons, hskip, Bool.false_eq_true,
              if_false, hj, hvalid', List.mem_cons]
            tauto

/-- C1 (failing input exhibit): the claim says a response arriving with status
code >= 400 is never retried — the single response already obtained determines
the result.  In src/crawler.py, response.raise_for_status() inside the try
block turns every 4xx/5xx response into an HTTPError, a RequestException that
the handler retries with exponential backoff; a fetch whose every attempt is
answered with HTTP 404 therefore performs backoff waits 2^0 = 1 and 2^1 = 2
and finally re-raises, returning no response, and the status >= 400 branch of
crawl_url (lines 162-166) is unreachable for those statuses. -/
theorem c1_retries_on_status_404 :
    Crawler.fetch_url_with_retry (fun _ => Crawler.AttemptOutcome.response 404 []) 3 =
      (Crawler.FetchRes.raised (Crawler.ReqErr.httpError 404), [1, 2]) := rfl

/-- C2: for a crawled URL (depth within bound, not yet visited, in the target
domain) whose fetch returns a response with status code >= 400, crawl_url
makes exactly one broken-link record call, with origin the task originUrl if
present else the URL itself, and detail "<url> - Status: <code>".  (With the
composed fetch_url_with_retry, statuses in [400, 600) raise instead of
returning — see C1 — so this branch is reached only by a fetcher returning
such a response, e.g. a status >= 600.) -/
theorem c2_client_error_single_record (td : String)
    (fetcher : String → Crawler.FetchRes) (b : Nat) (url : String)
    (o : Option String) (s : St) (status : Nat) (hs : List String)
    (hv : url ∉ s.visited) (hd : Crawler.is_target_domain url td = true)
    (hf : fetcher url = Crawler.FetchRes.returned status hs)
    (hst : 400 ≤ status) :
    Crawler.crawlGo td fetcher (b + 1) url o s =
      (record { s with visited := url :: s.visited } (o.getD url)
         s!"{url} - Status: {status}",
       [Event.claimOk url, Event.fetch url,
        Event.record (o.getD url) s!"{url} - Status: {status}"]) := by
  have h200 : ¬ status = 200 := by omega
  have hd' : ¬ Crawler.is_target_domain url td = false := by simp [hd]
  show Crawler.crawlStep td fetcher (Crawler.crawlGo td fetcher b) url o s = _
  simp only [Crawler.crawlStep, if_neg hv, if_neg hd', hf, if_neg h200, if_pos hst]

/-- C2 witness: a fetcher answering 404 on a claimed in-domain URL with an
origin produces exactly the single Status record attributed to the origin. -/
theorem c2_witness :
    Crawler.crawlGo "example.com" (fun _ => Crawler.FetchRes.returned 404 []) 1
        "https://example.com/a" (some "https://example.com/") st0 =
      (record { st0 with visited := ["https://example.com/a"] } "https://example.com/"
         "https://example.com/a - Status: 404",
       [Event.claimOk "https://example.com/a", Event.fetch "https://example.com/a",
        Event.record "https://example.com/" "https://example.com/a - Status: 404"]) :=
  c2_client_error_single_record "example.com" _ 0 "https://example.com/a"
    (some "https://example.com/") st0 404 [] (by decide) (by decide) rfl (by omega)

/-- C3 counterexample: the claim classifies every status in [200,399] as
Success with full href processing, but crawl_url checks status_code == 200
only.  A response with status 204 carrying the href "http://" — whose
resolution is syntactically invalid and should, per the claim, yield an
Invalid-URL record — produces no record and no dispatch at all. -/
theorem c3_cex :
    (Crawler.crawlGo "example.com"
        (fun _ => Crawler.FetchRes.returned 204 ["http://"]) 4
        "https://example.com/" none st0) =
      ({ visited := ["https://example.com/"], broken := [], writes := [] },
       [Event.claimOk "https://example.com/", Event.fetch "https://example.com/"]) ∧
    (200 ≤ 204 ∧ 204 ≤ 399) ∧
    UrlLib.urljoinE "https://example.com/" "http://" = Except.ok "http://" ∧
    Crawler.is_valid_url "http://" = false :=
  ⟨by decide, by omega, by decide, by decide⟩

/-- C3 (amended): for a crawled URL (depth within bound, unvisited, in domain)
whose fetch returns status exactly 200 — not all of [200,399]; other 2xx/3xx
statuses match neither branch and are dropped silently — and whose hrefs all
resolve without a urljoin parse error, every extracted href is processed:
mailto/tel hrefs are skipped, each remaining href is resolved against the
current page URL, invalid resolutions are each recorded with origin = the
current URL and detail "Invalid URL: ...", and each valid resolution not
already in the visited registry at dispatch time is dispatched as a child
crawl at depth + 1 (budget b). -/
theorem c3_success_processing (td : String) (fetcher : String → Crawler.FetchRes)
    (b : Nat) (url : String) (o : Option String) (s : St) (hs : List String)
    (hv : url ∉ s.visited) (hd : Crawler.is_target_domain url td = true)
    (hf : fetcher url = Crawler.FetchRes.returned 200 hs)
    (hok : ∀ h ∈ hs, Crawler.is_mailto_link h = false →
        Crawler.is_tel_link h = false →
        ∃ a, UrlLib.urljoinE url h = Except.ok a) :
    ∃ s1 s2 t2,
      Crawler.processHrefs url hs { s with visited := url :: s.visited } =
        Crawler.HrefsOut.ok s1
          ((invalidRecords url hs).map fun p => Event.record p.1 p.2)
          (crawlLinks url hs) ∧
      s1.visited = url :: s.visited ∧
      s1.writes = s.writes ++ invalidRecords url hs ∧
      (∀ p, p ∈ s1.broken ↔ p ∈ s.broken ∨ p ∈ invalidRecords url hs) ∧
      crawlChildren (Crawler.crawlGo td fetcher b) (crawlLinks url hs) s1 = (s2, t2) ∧
      Crawler.crawlGo td fetcher (b + 1) url o s =
        (s2, Event.claimOk url :: Event.fetch url ::
          (((invalidRecords url hs).map fun p => Event.record p.1 p.2) ++ t2)) := by
  have hd' : ¬ Crawler.is_target_domain url td = false := by simp [hd]
  obtain ⟨s1, heq, hv1, hw1, hb1⟩ :=
    processHrefs_closed url hs { s with visited := url :: s.visited } hok
  rcases hcc : crawlChildren (Crawler.crawlGo td fetcher b) (crawlLinks url hs) s1
    with ⟨s2, t2⟩
  refine ⟨s1, s2, t2, heq, hv1, hw1, hb1, hcc, ?_⟩
  show Crawler.crawlStep td fetcher (Crawler.crawlGo td fetcher b) url o s = _
  simp only [Crawler.crawlStep, if_neg hv, if_neg hd', hf, heq, hcc,
    eq_self_iff_true, if_true]

/-- C3 witness: a 200 page with an invalid href and a valid relative href is
processed per the amended claim. -/
theorem c3_witness :
    ∃ s1 s2 t2,
      Crawler.processHrefs "https://example.com/" ["http://", "/page"]
          { st0 with visited := ["https://example.com/"] } =
        Crawler.HrefsOut.ok s1
          ((invalidRecords "https://example.com/" ["http://", "/page"]).map
            fun p => Event.record p.1 p.2)
          (crawlLinks "https://example.com/" ["http://", "/page"]) ∧
      s1.visited = "https://example.com/" :: st0.visited ∧
      s1.writes = st0.writes ++ invalidRecords "https://example.com/" ["http://", "/page"] ∧
      (∀ p, p ∈ s1.broken ↔ p ∈ st0.broken ∨
          p ∈ invalidRecords "https://example.com/" ["http://", "/page"]) ∧
      crawlChildren
          (Crawler.crawlGo "example.com" (fun _ => Crawler.FetchRes.returned 200 ["http://", "/page"]) 1)
          (crawlLinks "https://example.com/" ["http://", "/page"]) s1 = (s2, t2) ∧
      Crawler.crawlGo "example.com"
          (fun _ => Crawler.FetchRes.returned 200 ["http://", "/page"]) 2
          "https://example.com/" none st0 =
        (s2, Event.claimOk "https://example.com/" :: Event.fetch "https://example.com/" ::
          (((invalidRecords "https://example.com/" ["http://", "/page"]).map
              fun p => Event.record p.1 p.2) ++ t2)) :=
  c3_success_processing "example.com"
    (fun _ => Crawler.FetchRes.returned 200 ["http://", "/page"]) 1
    "https://example.com/" none st0 ["http://", "/page"]
    (by decide) (by decide) rfl
    (by
      intro h hmem hm ht
      fin_cases hmem
      · exact ⟨"http://", by decide⟩
      · exact ⟨"https://example.com/page", by decide⟩)

/-- C4: (i) in any serialisation of concurrent tryClaim calls, the claim on u
succeeds exactly once when some caller requests u and u was not already
visited, and never otherwise (hence at most once however many tasks race);
(ii)/(iii) every run of either crawl variant satisfies the run invariant: the
visited registry only grows (no unclaim — membership is permanent), each
successful claim was of a fresh URL, no URL is successfully claimed twice, every
fetched URL was claimed with the claim preceding the fetch in the trace, and
no URL is fetched twice. -/
theorem c4_claim_unique :
    (∀ (reqs vis : List String) (u : String),
        ((runClaims vis reqs).1.count (u, true)) =
          if u ∈ reqs ∧ u ∉ vis then 1 else 0) ∧
    (∀ (td : String) (fetcher : String → Crawler.FetchRes) (b : Nat)
        (url : String) (o : Option String) (s : St),
        RunInv s (Crawler.crawlGo td fetcher b url o s)) ∧
    (∀ (fetchS : String → Selenium.SelFetch) (b : Nat) (url : String)
        (o : Option String) (s : St),
        RunInv s (Selenium.crawlGo fetchS b url o s)) :=
  ⟨runClaims_count,
   fun td f b url o s => runInv_crawlGo td f b url o s,
   fun fS b url o s => runInv_crawlGoSel fS b url o s⟩

/-- C4 witness: three racing claims on "u" succeed once, and a concrete crawl
trace has no duplicate successful claim. -/
theorem c4_witness :
    ((runClaims [] ["u", "u", "v", "u"]).1.count ("u", true)) = 1 ∧
    (claimUrls (Crawler.crawlGo "example.com"
        (fun _ => Crawler.FetchRes.returned 404 []) 2
        "https://example.com/" none st0).2).Nodup := by
  constructor
  · rw [c4_claim_unique.1]
    decide
  · exact (c4_claim_unique.2.1 "example.com"
      (fun _ => Crawler.FetchRes.returned 404 []) 2 "https://example.com/" none st0).2.2.2.1

/-- C5 counterexample: in the browser-rendered variant there is no tel check;
a tel: href on an in-domain page is resolved, fails the syntactic validity
check (a tel URL has no netloc), and IS recorded as broken, contradicting the
claim that tel links are never recorded in both variants. -/
theorem c5_cex :
    Crawler.is_tel_link "tel:+441234567890" = true ∧
    Selenium.is_rbo_domain "https://www.rbo.org.uk/" = true ∧
    (Selenium.crawlGo (fun _ => Selenium.SelFetch.loaded [some "tel:+441234567890"]) 4
        "https://www.rbo.org.uk/" none st0).1.broken =
      [("https://www.rbo.org.uk/", "Invalid URL: tel:+441234567890")] := by
  refine ⟨by decide, by decide, by decide⟩

/-- C5 (amended): in the plain-HTTP variant every mailto: or tel: href is
skipped entirely by the href loop — no record, no link collected (hence never
claimed or fetched) — for every state; in the browser-rendered variant this
holds for mailto: hrefs only (tel: hrefs are not filtered there and fall
through to URL resolution, see the counterexample). -/
theorem c5_noncrawlable_skip :
    (∀ (url h : String) (hs : List String) (s : St),
        Crawler.is_mailto_link h = true ∨ Crawler.is_tel_link h = true →
        Crawler.processHrefs url (h :: hs) s = Crawler.processHrefs url hs s) ∧
    (∀ (url h : String) (hs : List (Option String)) (s : St),
        Crawler.is_mailto_link h = true →
        Selenium.processHrefs url (some h :: hs) s = Selenium.processHrefs url hs s) := by
  constructor
  · intro url h hs s hcase
    by_cases hm : Crawler.is_mailto_link h = true
    · simp only [Crawler.processHrefs, if_pos hm]
    · have ht : Crawler.is_tel_link h = true := hcase.resolve_left hm
      simp only [Crawler.processHrefs, if_neg hm, if_pos ht]
  · intro url h hs s hm
    have hne : ¬ h = "" := by
      intro he
      subst he
      exact absurd hm (by decide)
    simp only [Selenium.processHrefs, if_neg hne, if_pos hm]

/-- C5 witness: a tel href is skipped by the HTTP loop and a mailto href by
the rendered-variant loop. -/
theorem c5_witness :
    Crawler.processHrefs "https://example.com/" ["tel:+44"] st0 =
      Crawler.processHrefs "https://example.com/" [] st0 ∧
    Selenium.processHrefs "https://www.rbo.org.uk/" [some "mailto:x@y"] st0 =
      Selenium.processHrefs "https://www.rbo.org.uk/" [] st0 :=
  ⟨c5_noncrawlable_skip.1 "https://example.com/" "tel:+44" [] st0 (Or.inr (by decide)),
   c5_noncrawlable_skip.2 "https://www.rbo.org.uk/" "mailto:x@y" [] st0 (by decide)⟩

/-- C6: a task whose depth exceeds the maximum is a pure no-op in both
variants: state unchanged, empty trace (no claim, no fetch, no record, no
recursion). -/
theorem c6_depth_noop :
    (∀ (td : String) (fetcher : String → Crawler.FetchRes) (url : String)
        (o : Option String) (max_depth current_depth : Nat) (s : St),
        max_depth < current_depth →
        Crawler.crawl_url td fetcher url o max_depth current_depth s = (s, [])) ∧
    (∀ (fetchS : String → Selenium.SelFetch) (url : String)
        (o : Option String) (max_depth current_depth : Nat) (s : St),
        max_depth < current_depth →
        Selenium.crawl_url fetchS url o max_depth current_depth s = (s, [])) := by
  constructor
  · intro td fetcher url o md cd s h
    unfold Crawler.crawl_url
    have hz : md + 1 - cd = 0 := by omega
    rw [hz]
    rfl
  · intro fetchS url o md cd s h
    unfold Selenium.crawl_url
    have hz : md + 1 - cd = 0 := by omega
    rw [hz]
    rfl

/-- C6 witness: depth 4 with maximum 3 does nothing in either variant. -/
theorem c6_witness :
    Crawler.crawl_url "example.com" (fun _ => Crawler.FetchRes.noneReturned)
        "https://example.com/" none 3 4 st0 = (st0, []) ∧
    Selenium.crawl_url (fun _ => Selenium.SelFetch.timeoutExc)
        "https://www.rbo.org.uk/" none 3 4 st0 = (st0, []) :=
  ⟨c6_depth_noop.1 "example.com" _ "https://example.com/" none 3 4 st0 (by omega),
   c6_depth_noop.2 _ "https://www.rbo.org.uk/" none 3 4 st0 (by omega)⟩

/-- C7: a task within the depth bound whose URL is not yet visited and not in
the target domain first claims the URL (visited gains it) and terminates with
no fetch and no record. -/
theorem c7_out_of_domain (td : String) (fetcher : String → Crawler.FetchRes)
    (url : String) (o : Option String) (max_depth current_depth : Nat) (s : St)
    (hdep : current_depth ≤ max_depth) (hv : url ∉ s.visited)
    (hd : Crawler.is_target_domain url td = false) :
    Crawler.crawl_url td fetcher url o max_depth current_depth s =
      ({ s with visited := url :: s.visited }, [Event.claimOk url]) := by
  unfold Crawler.crawl_url
  obtain ⟨b, hb⟩ : ∃ b, max_depth + 1 - current_depth = b + 1 :=
    ⟨max_depth - current_depth, by omega⟩
  rw [hb]
  show Crawler.crawlStep td fetcher (Crawler.crawlGo td fetcher b) url o s = _
  simp only [Crawler.crawlStep, if_neg hv, if_pos hd]

/-- C7 witness: an out-of-domain URL is claimed and dropped. -/
theorem c7_witness :
    Crawler.crawl_url "example.com" (fun _ => Crawler.FetchRes.returned 200 [])
        "https://other.org/" none 3 0 st0 =
      ({ st0 with visited := ["https://other.org/"] }, [Event.claimOk "https://other.org/"]) :=
  c7_out_of_domain "example.com" _ "https://other.org/" none 3 0 st0
    (by omega) (by decide) (by decide)

/-- C8: the domain-membership predicate equals the substring test of the
target domain against the parsed netloc — subdomains match, and unrelated
domains merely containing the string match too — and a parse failure yields
false rather than an exception; the substring test itself is exactly list
infix on code points, and the rendered variant's is_rbo_domain is the same
predicate at target "rbo.org.uk". -/
theorem c8_domain_membership :
    (∀ (url td : String) (r : UrlLib.ParseResult),
        UrlLib.urlparseE url "" = Except.ok r →
        Crawler.is_target_domain url td = UrlLib.strContains r.netloc td) ∧
    (∀ (url td e : String),
        UrlLib.urlparseE url "" = Except.error e →
        Crawler.is_target_domain url td = false) ∧
    (∀ s sub : String, UrlLib.strContains s sub = true ↔ sub.data <:+: s.data) ∧
    (∀ url : String,
        Selenium.is_rbo_domain url = Crawler.is_target_domain url "rbo.org.uk") := by
  refine ⟨?_, ?_, strContains_iff, ?_⟩
  · intro url td r h
    unfold Crawler.is_target_domain
    rw [h]
  · intro url td e h
    unfold Crawler.is_target_domain
    rw [h]
  · intro url
    unfold Selenium.is_rbo_domain Crawler.is_target_domain
    rfl

/-- C8 witness: a subdomain matches, an unrelated domain containing the
string matches, and the bracket parse failure yields false. -/
theorem c8_witness :
    Crawler.is_target_domain "https://sub.example.com/x" "example.com" =
      UrlLib.strContains "sub.example.com" "example.com" ∧
    Crawler.is_target_domain "http://[" "example.com" = false ∧
    (UrlLib.strContains "notexample.com.evil.org" "example.com" = true ↔
      "example.com".data <:+: "notexample.com.evil.org".data) :=
  ⟨c8_domain_membership.1 "https://sub.example.com/x" "example.com"
      ⟨"https", "sub.example.com", "/x", "", "", ""⟩ (by decide),
   c8_domain_membership.2.1 "http://[" "example.com" "Invalid IPv6 URL" (by decide),
   c8_domain_membership.2.2.1 "notexample.com.evil.org" "example.com"⟩

/-- C9: fetch_url_with_retry is total only for retries >= 1 — it then either
returns a response or raises; with retries 0 the loop body never runs and the
function returns None, and the caller's access response.status_code then
takes the generic exception path of crawl_url, recording an error. -/
theorem c9_fetch_totality :
    (∀ (att : Nat → Crawler.AttemptOutcome) (retries : Nat), 1 ≤ retries →
        (∃ st hs, (Crawler.fetch_url_with_retry att retries).1 =
            Crawler.FetchRes.returned st hs) ∨
        (∃ e, (Crawler.fetch_url_with_retry att retries).1 =
            Crawler.FetchRes.raised e)) ∧
    (∀ att, (Crawler.fetch_url_with_retry att 0).1 = Crawler.FetchRes.noneReturned) ∧
    (∀ (td : String) (child : String → Option String → St → St × List Event)
        (url : String) (o : Option String) (s : St),
        url ∉ s.visited → Crawler.is_target_domain url td = true →
        Crawler.crawlStep td (fun _ => Crawler.FetchRes.noneReturned) child url o s =
          (record { s with visited := url :: s.visited } (o.getD url)
             s!"{url} - Error: NoneType object has no attribute status_code",
           [Event.claimOk url, Event.fetch url,
            Event.record (o.getD url)
              s!"{url} - Error: NoneType object has no attribute status_code"])) := by
  refine ⟨?_, ?_, ?_⟩
  · intro att retries h
    have hne := fetch_ne_none att retries h
    cases hres : (Crawler.fetch_url_with_retry att retries).1 with
    | returned st hs => exact Or.inl ⟨st, hs, rfl⟩
    | raised e => exact Or.inr ⟨e, rfl⟩
    | noneReturned => exact absurd hres hne
  · intro att
    rfl
  · intro td child url o s hv hd
    have hd' : ¬ Crawler.is_target_domain url td = false := by simp [hd]
    simp only [Crawler.crawlStep, if_neg hv, if_neg hd']

/-- C9 witness: with one attempt the result is returned or raised; with zero
attempts it is None and the caller records the attribute error. -/
theorem c9_witness :
    ((∃ st hs, (Crawler.fetch_url_with_retry
          (fun _ => Crawler.AttemptOutcome.response 200 []) 1).1 =
        Crawler.FetchRes.returned st hs) ∨
      (∃ e, (Crawler.fetch_url_with_retry
          (fun _ => Crawler.AttemptOutcome.response 200 []) 1).1 =
        Crawler.FetchRes.raised e)) ∧
    (Crawler.fetch_url_with_retry (fun _ => Crawler.AttemptOutcome.response 200 []) 0).1 =
      Crawler.FetchRes.noneReturned ∧
    Crawler.crawlStep "example.com" (fun _ => Crawler.FetchRes.noneReturned)
        (fun _ _ s => (s, [])) "https://example.com/" none st0 =
      (record { st0 with visited := ["https://example.com/"] } "https://example.com/"
         "https://example.com/ - Error: NoneType object has no attribute status_code",
       [Event.claimOk "https://example.com/", Event.fetch "https://example.com/",
        Event.record "https://example.com/"
          "https://example.com/ - Error: NoneType object has no attribute status_code"]) :=
  ⟨c9_fetch_totality.1 (fun _ => Crawler.AttemptOutcome.response 200 []) 1 (by omega),
   c9_fetch_totality.2.1 (fun _ => Crawler.AttemptOutcome.response 200 []),
   c9_fetch_totality.2.2 "example.com" (fun _ _ s => (s, [])) "https://example.com/"
     none st0 (by decide) (by decide)⟩

/-- C10: a 200 page carrying the same syntactically invalid href twice makes
the external write notification twice — once per discovery, because the write
is unconditional — while the in-memory broken-links set holds the (origin,
detail) pair once.  Evaluated through the composed pipeline including
fetch_url_with_retry. -/
theorem c10_duplicate_invalid_href :
    (Crawler.crawlGo "example.com"
        (Crawler.httpFetcher
          (fun _ _ => Crawler.AttemptOutcome.response 200 ["http://", "http://"])) 4
        "https://example.com/" none st0).1.writes =
      [("https://example.com/", "Invalid URL: http://"),
       ("https://example.com/", "Invalid URL: http://")] ∧
    (Crawler.crawlGo "example.com"
        (Crawler.httpFetcher
          (fun _ _ => Crawler.AttemptOutcome.response 200 ["http://", "http://"])) 4
        "https://example.com/" none st0).1.broken =
      [("https://example.com/", "Invalid URL: http://")] := by
  refine ⟨by decide, by decide⟩
